import Mathlib

/-!
Verification of the chunked batch execution engine of `clean_dynamodb_store`.

The development shallowly embeds the Rust sources:
* `src/chunking.rs` — pure chunking of slices into provider-sized batches;
* `src/retry.rs` — retry configuration, exponential backoff, and the retry loop;
* `src/store/batch.rs` — the batch write/read orchestrators and the typed wrappers;
* `src/store/mod.rs` and `src/error.rs` — result records, validation, error type.

Items, keys and write requests are opaque to the engine, so they are modelled by
type parameters.  The DynamoDB client responses are modelled by an environment
function indexed by chunk number and attempt number.  `u64` arithmetic is
modelled on `Nat` with an explicit reduction modulo `2 ^ 64`.
-/

namespace CleanDynamoDbStore

/-! ## Chunking (`src/chunking.rs`) -/

/-- Constant `DYNAMODB_BATCH_LIMIT` from `src/chunking.rs`: BatchWriteItem max items. -/
def DYNAMODB_BATCH_LIMIT : Nat := 25

/-- Constant `DYNAMODB_BATCH_GET_LIMIT` from `src/chunking.rs`: BatchGetItem max items. -/
def DYNAMODB_BATCH_GET_LIMIT : Nat := 100

/-- Rust `slice::chunks (s + 1)` on a list: successive sub-lists of length
`s + 1`, the last one possibly shorter.  The chunk size is written `s + 1`
because `slice::chunks` requires a positive size (it panics on `0`).  The
`fuel` argument only makes the recursion structural: it is initialised to the
list length and every step consumes at least one element, so the
fuel-exhausted case (second equation) is never reached. -/
def chunksGo (s : Nat) : Nat → List α → List (List α)
  | _, [] => []
  | 0, _ :: _ => []
  | fuel + 1, x :: xs => (x :: xs.take s) :: chunksGo s fuel (xs.drop s)

/-- Rust `slice::chunks (s + 1)` on a list. -/
def chunksAux (s : Nat) (l : List α) : List (List α) :=
  chunksGo s l.length l

/-- Rust `items.chunks(size).collect()`.  `slice::chunks` panics when
`size = 0`; the library only ever calls it with the positive constants 25 and
100 (or a caller-supplied positive size), so the `0` case is given the junk
value `[]` and every theorem below assumes a positive size. -/
def chunks (size : Nat) (l : List α) : List (List α) :=
  match size with
  | 0 => []
  | s + 1 => chunksAux s l

/-- Function `chunk_items` from `src/chunking.rs`: chunk with an optional size,
defaulting to `DYNAMODB_BATCH_LIMIT`. -/
def chunk_items (items : List α) (chunk_size : Option Nat) : List (List α) :=
  chunks (chunk_size.getD DYNAMODB_BATCH_LIMIT) items

/-- Function `chunk_for_write` from `src/chunking.rs`: chunks of 25 for BatchWriteItem. -/
def chunk_for_write (items : List α) : List (List α) :=
  chunks DYNAMODB_BATCH_LIMIT items

/-- Function `chunk_for_get` from `src/chunking.rs`: chunks of 100 for BatchGetItem. -/
def chunk_for_get (items : List α) : List (List α) :=
  chunks DYNAMODB_BATCH_GET_LIMIT items

/-! ## Retry with exponential backoff (`src/retry.rs`) -/

/-- The modulus `2 ^ 64` of Rust `u64` arithmetic. -/
def U64_MOD : Nat := 2 ^ 64

/-- Struct `RetryConfig` from `src/retry.rs`.  The Rust fields `initial_delay_ms` and
`backoff_multiplier` are `u64` and `max_retries` is `usize`; they are carried
as `Nat`, with the `u64` wrap-around made explicit in `delay_for_attempt`. -/
structure RetryConfig where
  max_retries : Nat
  initial_delay_ms : Nat
  backoff_multiplier : Nat
deriving DecidableEq

/-- Rust `RetryConfig::default()`: 3 retries, 100 ms initial delay, ×2 multiplier. -/
def RetryConfig.default : RetryConfig :=
  { max_retries := 3, initial_delay_ms := 100, backoff_multiplier := 2 }

/-- Rust `RetryConfig::delay_for_attempt`: `initial_delay_ms * multiplier.pow(attempt)`
in `u64` arithmetic (wrapping is reduction mod `2 ^ 64`; intermediate wrapping
of `pow` agrees with wrapping the final product once), as a duration in ms. -/
def RetryConfig.delay_for_attempt (c : RetryConfig) (attempt : Nat) : Nat :=
  c.initial_delay_ms * c.backoff_multiplier ^ attempt % U64_MOD

/-- The three ways the `retry_with_backoff` loop can leave: a returned result,
a returned terminal error, or the `unreachable!()` panic after the loop. -/
inductive RetryResult (τ : Type u) (ε : Type v) where
  | ok (result : τ)
  | err (e : ε)
  | panicked
deriving DecidableEq

/-- Observable behaviour of one `retry_with_backoff` call: its outcome, how
many times the operation closure was invoked, and the backoff sleeps (in ms,
in order) that were performed. -/
structure RetryTrace (τ : Type u) (ε : Type v) where
  outcome : RetryResult τ ε
  invocations : Nat
  sleeps : List Nat
deriving DecidableEq

/-- The body of `retry_with_backoff`'s `for attempt in 0..=max_retries` loop.
`fuel` is the number of loop iterations still permitted
(`max_retries + 1 - attempt`); when it reaches `0` the loop is over and the
`unreachable!()` after it runs.  The operation is modelled as a function of
the attempt index (the Rust closure is invoked once per attempt). -/
def retryGo (op : Nat → Except ε (τ × Bool)) (cfg : RetryConfig) :
    Nat → Nat → Nat → List Nat → RetryTrace τ ε
  | 0, _, calls, sleeps => ⟨.panicked, calls, sleeps⟩
  | fuel + 1, attempt, calls, sleeps =>
    match op attempt with
    | .error e => ⟨.err e, calls + 1, sleeps⟩
    | .ok (result, should_retry) =>
      if should_retry = false ∨ attempt = cfg.max_retries then
        ⟨.ok result, calls + 1, sleeps⟩
      else
        retryGo op cfg fuel (attempt + 1) (calls + 1)
          (sleeps ++ [cfg.delay_for_attempt attempt])

/-- Function `retry_with_backoff` from `src/retry.rs`: run the loop from attempt `0`
with `max_retries + 1` permitted iterations and no calls or sleeps yet. -/
def retry_with_backoff (op : Nat → Except ε (τ × Bool)) (cfg : RetryConfig) :
    RetryTrace τ ε :=
  retryGo op cfg (cfg.max_retries + 1) 0 0 []

/-! ## Error type and result records (`src/error.rs`, `src/store/mod.rs`) -/

instance exceptDecEq [DecidableEq ε] [DecidableEq α] :
    DecidableEq (Except ε α) := fun x y =>
  match x, y with
  | .ok a, .ok b =>
    if h : a = b then .isTrue (by rw [h])
    else .isFalse (fun hc => by injection hc; contradiction)
  | .error a, .error b =>
    if h : a = b then .isTrue (by rw [h])
    else .isFalse (fun hc => by injection hc; contradiction)
  | .ok _, .error _ => .isFalse (fun hc => Except.noConfusion hc)
  | .error _, .ok _ => .isFalse (fun hc => Except.noConfusion hc)

/-- Type `Error` from `src/error.rs`.  The boxed `aws_sdk_dynamodb::Error` payload
is opaque to this core; it is carried as its `Display` rendering. -/
inductive Error where
  | AwsSdk (msg : String)
  | Validation (msg : String)
deriving DecidableEq

/-- The `Display` implementation derived by `thiserror`:
`"AWS SDK error: {0}"` and `"Validation error: {0}"`. -/
def Error.display : Error → String
  | .AwsSdk m => "AWS SDK error: " ++ m
  | .Validation m => "Validation error: " ++ m

/-- Struct `FailedItem` from `src/store/mod.rs`, generic over the item
representation (Rust fixes it to `HashMap<String, AttributeValue>`). -/
structure FailedItem (ι : Type u) where
  item : ι
  error : String
deriving DecidableEq

/-- Struct `BatchWriteResult` from `src/store/mod.rs`. -/
structure BatchWriteResult (ι : Type u) where
  successful : Nat
  failed : Nat
  failed_items : List (FailedItem ι)
deriving DecidableEq

/-- Struct `FailedKey` from `src/store/mod.rs`, generic over the key representation. -/
structure FailedKey (κ : Type u) where
  key : κ
  error : String
deriving DecidableEq

/-- Struct `BatchGetResult<T>` from `src/store/mod.rs`, generic over the key
representation `κ` of `failed_keys` and the item type `τ`. -/
structure BatchGetResult (κ : Type u) (τ : Type v) where
  successful : Nat
  failed : Nat
  items : List τ
  failed_keys : List (FailedKey κ)
deriving DecidableEq

/-- Rust `str::trim`: drop leading and trailing whitespace characters. -/
def rustTrim (s : String) : String :=
  String.mk
    (((s.data.dropWhile Char.isWhitespace).reverse.dropWhile
        Char.isWhitespace).reverse)

/-- Method `DynamoDbStore::validate_table_name` from `src/store/mod.rs`: the trimmed
name must be non-empty (`table_name.trim().is_empty()`). -/
def validate_table_name (table_name : String) : Except Error Unit :=
  if rustTrim table_name = "" then
    .error (.Validation "Table name cannot be empty")
  else
    .ok ()

/-! ## Batch write orchestrator (`src/store/batch.rs`) -/

/-- The DynamoDB `BatchWriteItem` response, as far as `execute_batch_write`
inspects it: `output.unprocessed_items` is an optional map from table name to
the unprocessed write requests for that table.  The requests themselves are
opaque; only how many there are matters, so each map entry carries the length
of its request list.  The map is an association list (`is_empty` is `= []`,
`get` is `List.lookup`). -/
def WriteOutput : Type := Option (List (String × Nat))

/-- One chunk-and-attempt-indexed environment of SDK-level responses for
`BatchWriteItem` calls: `env chunk attempt` is either the `send()` error's
rendering or the response. -/
def WriteEnv : Type := Nat → Nat → Except String WriteOutput

/-- Method `DynamoDbStore::execute_batch_write` from `src/store/batch.rs`, given the
response of its one `send()` call.  A send error is wrapped in
`Error::AwsSdk`.  Otherwise, when the response lists unprocessed requests for
this table, the attempt reports `total - unprocessed_count` successes (`usize`
subtraction; DynamoDB only reports submitted requests as unprocessed, so the
count never exceeds `total`) and asks for a retry; in every other case all
items succeeded and no retry is needed.  The per-attempt failed-item list is
the freshly created empty `Vec` in all non-error cases. -/
def execute_batch_write (table_name : String) (items : List ι)
    (resp : Except String WriteOutput) :
    Except Error ((Nat × List (FailedItem ι)) × Bool) :=
  match resp with
  | .error e => .error (.AwsSdk e)
  | .ok output =>
    let total_items := items.length
    match output with
    | some unprocessed =>
      if unprocessed.isEmpty then
        .ok ((total_items, []), false)
      else
        match unprocessed.lookup table_name with
        | some unprocessed_count =>
          .ok ((total_items - unprocessed_count, []), true)
        | none => .ok ((total_items, []), false)
    | none => .ok ((total_items, []), false)

/-- The `FailedItem` built by `batch_put_items` for a chunk whose call ended
in a terminal error: `format!("Batch write error: {}", e)`. -/
def mkFailedItem (e : Error) (item : ι) : FailedItem ι :=
  ⟨item, "Batch write error: " ++ e.display⟩

/-- The outcome of one chunk's retry loop inside `batch_put_items`. -/
def writeChunkOutcome (env : WriteEnv) (table_name : String) (i : Nat)
    (chunk : List ι) : RetryResult (Nat × List (FailedItem ι)) Error :=
  (retry_with_backoff (fun a => execute_batch_write table_name chunk (env i a))
    RetryConfig.default).outcome

/-- The chunk loop of `batch_put_items`: accumulate each chunk's successful
count and failed items (a terminal chunk error records every item of the
chunk as failed).  `none` models the process abort of the retry loop's
`unreachable!()` panic — proved impossible below. -/
def putChunksGo (env : WriteEnv) (table_name : String) :
    Nat → List (List ι) → Option (Nat × List (FailedItem ι))
  | _, [] => some (0, [])
  | i, chunk :: rest =>
    match writeChunkOutcome env table_name i chunk with
    | .panicked => none
    | .ok (succeeded, failures) =>
      (putChunksGo env table_name (i + 1) rest).map
        (fun acc => (succeeded + acc.1, failures ++ acc.2))
    | .err e =>
      (putChunksGo env table_name (i + 1) rest).map
        (fun acc => (acc.1, chunk.map (mkFailedItem e) ++ acc.2))

/-- Method `DynamoDbStore::batch_put_items` from `src/store/batch.rs`: validate the
table name, short-circuit on empty input, then run every 25-item chunk
through the retry loop and aggregate.  `none` models a panic (never happens). -/
def batch_put_items (env : WriteEnv) (table_name : String) (items : List ι) :
    Option (Except Error (BatchWriteResult ι)) :=
  match validate_table_name table_name with
  | .error e => some (.error e)
  | .ok _ =>
    if items.isEmpty then
      some (.ok ⟨0, 0, []⟩)
    else
      match putChunksGo env table_name 0 (chunk_for_write items) with
      | none => none
      | some (successful, failed_items) =>
        some (.ok ⟨successful, failed_items.length, failed_items⟩)

/-! ## Batch read orchestrator (`src/store/batch.rs`) -/

/-- The DynamoDB `BatchGetItem` response, as far as `execute_batch_get`
inspects it: `responses` is an optional map from table name to retrieved
items, and `unprocessed_keys` an optional map from table name to unprocessed
`KeysAndAttributes` (whose contents are never read, so only the table names
are kept). -/
structure GetOutput (ι : Type u) where
  responses : Option (List (String × List ι))
  unprocessed_keys : Option (List String)
deriving DecidableEq

/-- Chunk-and-attempt-indexed environment of SDK-level `BatchGetItem`
responses. -/
def GetEnv (ι : Type u) : Type u := Nat → Nat → Except String (GetOutput ι)

/-- Method `DynamoDbStore::execute_batch_get` from `src/store/batch.rs`, given the
response of its one `send()` call.  The retrieved items are the response's
entry for this table (if any); the per-attempt failed-key list is the freshly
created empty `Vec`; a retry is requested iff the unprocessed-keys map is
present, non-empty, and has an entry for this table.  (The
`KeysAndAttributes` builder is always given `Some(keys)`, so its only failure
path cannot trigger and is not modelled.) -/
def execute_batch_get (table_name : String) (keys : List μ)
    (resp : Except String (GetOutput ι)) :
    Except Error ((List ι × List (FailedKey μ)) × Bool) :=
  match resp with
  | .error e => .error (.AwsSdk e)
  | .ok output =>
    let retrieved_items : List ι :=
      match output.responses with
      | some responses => (responses.lookup table_name).getD []
      | none => []
    match output.unprocessed_keys with
    | some unprocessed =>
      if unprocessed.isEmpty then
        .ok ((retrieved_items, []), false)
      else if unprocessed.contains table_name then
        .ok ((retrieved_items, []), true)
      else
        .ok ((retrieved_items, []), false)
    | none => .ok ((retrieved_items, []), false)

/-- The `FailedKey` built by `batch_get_items` for a chunk whose call ended in
a terminal error: `format!("Batch get error: {}", e)`. -/
def mkFailedKey (e : Error) (key : μ) : FailedKey μ :=
  ⟨key, "Batch get error: " ++ e.display⟩

/-- The outcome of one chunk's retry loop inside `batch_get_items`. -/
def getChunkOutcome (env : GetEnv ι) (table_name : String) (i : Nat)
    (chunk : List μ) : RetryResult (List ι × List (FailedKey μ)) Error :=
  (retry_with_backoff (fun a => execute_batch_get table_name chunk (env i a))
    RetryConfig.default).outcome

/-- The chunk loop of `batch_get_items`: accumulate each chunk's retrieved
items and failed keys (a terminal chunk error records every key of the chunk
as failed).  `none` models the `unreachable!()` panic — proved impossible. -/
def getChunksGo (env : GetEnv ι) (table_name : String) :
    Nat → List (List μ) → Option (List ι × List (FailedKey μ))
  | _, [] => some ([], [])
  | i, chunk :: rest =>
    match getChunkOutcome env table_name i chunk with
    | .panicked => none
    | .ok (items, failures) =>
      (getChunksGo env table_name (i + 1) rest).map
        (fun acc => (items ++ acc.1, failures ++ acc.2))
    | .err e =>
      (getChunksGo env table_name (i + 1) rest).map
        (fun acc => (acc.1, chunk.map (mkFailedKey e) ++ acc.2))

/-- Method `DynamoDbStore::batch_get_items` from `src/store/batch.rs`: validate the
table name, short-circuit on empty input, then run every 100-key chunk
through the retry loop and aggregate; `successful` is the number of items
retrieved and `failed` the number of failed keys. -/
def batch_get_items (env : GetEnv ι) (table_name : String) (keys : List μ) :
    Option (Except Error (BatchGetResult μ ι)) :=
  match validate_table_name table_name with
  | .error e => some (.error e)
  | .ok _ =>
    if keys.isEmpty then
      some (.ok ⟨0, 0, [], []⟩)
    else
      match getChunksGo env table_name 0 (chunk_for_get keys) with
      | none => none
      | some (all_items, failed_keys) =>
        some (.ok ⟨all_items.length, failed_keys.length, all_items, failed_keys⟩)

/-! ## Typed wrapper `batch_get` (`src/store/batch.rs`) -/

/-- Rust's `collect::<Result<Vec<_>, _>>()`: evaluate left to right, stopping
at the first error. -/
def collectResults (f : α → Except Error β) : List α → Except Error (List β)
  | [] => .ok []
  | a :: as =>
    match f a with
    | .error e => .error e
    | .ok b =>
      match collectResults f as with
      | .error e => .error e
      | .ok bs => .ok (b :: bs)

/-- Method `DynamoDbStore::batch_get` from `src/store/batch.rs`: validate, serialize
every key (`serde_dynamo::to_item`, a failure becomes a `Validation` error),
read through `batch_get_items`, then deserialize every retrieved item
(`serde_dynamo::from_item`, a failure becomes a `Validation` error for the
whole call).  The codec is a parameter (`serde_dynamo` is external). -/
def batch_get (env : GetEnv ι) (table_name : String)
    (serialize_key : κ → Except String ι)
    (deserialize_item : ι → Except String τ) (keys : List κ) :
    Option (Except Error (BatchGetResult ι τ)) :=
  match validate_table_name table_name with
  | .error e => some (.error e)
  | .ok _ =>
    match collectResults
        (fun k => match serialize_key k with
          | .error e => .error (.Validation ("Failed to serialize key: " ++ e))
          | .ok m => .ok m) keys with
    | .error e => some (.error e)
    | .ok key_maps =>
      match batch_get_items env table_name key_maps with
      | none => none
      | some (.error e) => some (.error e)
      | some (.ok result) =>
        match collectResults
            (fun it => match deserialize_item it with
              | .error e =>
                .error (.Validation ("Failed to deserialize item: " ++ e))
              | .ok v => .ok v) result.items with
        | .error e => some (.error e)
        | .ok deserialized_items =>
          some (.ok ⟨result.successful, result.failed, deserialized_items,
                     result.failed_keys⟩)

/-- A concrete two-attempt read environment: the first attempt returns the
record `9` for table `"t"` but reports unprocessed keys for `"t"` (so it is
retried); every later attempt returns no records and no unprocessed keys. -/
def getEnvEx : GetEnv Nat := fun _ a =>
  if a = 0 then .ok ⟨some [("t", [9])], some ["t"]⟩
  else .ok ⟨some [("t", [])], none⟩

/-! ## Chunking lemmas -/

theorem chunksGo_flatten (s : Nat) :
    ∀ (fuel : Nat) (l : List α), l.length ≤ fuel →
      (chunksGo s fuel l).flatten = l := by
  intro fuel
  induction fuel with
  | zero =>
    intro l hl
    cases l with
    | nil => simp [chunksGo]
    | cons x xs => simp at hl
  | succ f ih =>
    intro l hl
    cases l with
    | nil => simp [chunksGo]
    | cons x xs =>
      simp only [chunksGo, List.flatten_cons]
      rw [ih (xs.drop s)
        (by simp only [List.length_drop]; simp only [List.length_cons] at hl; omega)]
      rw [List.cons_append, List.take_append_drop]

theorem chunksAux_join (s : Nat) (l : List α) : (chunksAux s l).flatten = l :=
  chunksGo_flatten s l.length l (Nat.le_refl _)

theorem chunksGo_mem_length (s : Nat) :
    ∀ (fuel : Nat) (l : List α), ∀ c ∈ chunksGo s fuel l, c.length ≤ s + 1 := by
  intro fuel
  induction fuel with
  | zero =>
    intro l c hc
    cases l <;> simp [chunksGo] at hc
  | succ f ih =>
    intro l c hc
    cases l with
    | nil => simp [chunksGo] at hc
    | cons x xs =>
      simp only [chunksGo, List.mem_cons] at hc
      rcases hc with rfl | hc
      · simp only [List.length_cons, List.length_take]
        omega
      · exact ih (xs.drop s) c hc

theorem chunksAux_mem_length (s : Nat) (l : List α) :
    ∀ c ∈ chunksAux s l, c.length ≤ s + 1 :=
  chunksGo_mem_length s l.length l

theorem chunksGo_length (s : Nat) :
    ∀ (fuel : Nat) (l : List α), l.length ≤ fuel →
      (chunksGo s fuel l).length = (l.length + s) / (s + 1) := by
  intro fuel
  induction fuel with
  | zero =>
    intro l hl
    cases l with
    | nil => simp [chunksGo, Nat.div_eq_of_lt (by omega : s < s + 1)]
    | cons x xs => simp at hl
  | succ f ih =>
    intro l hl
    cases l with
    | nil => simp [chunksGo, Nat.div_eq_of_lt (by omega : s < s + 1)]
    | cons x xs =>
      simp only [List.length_cons] at hl
      simp only [chunksGo, List.length_cons]
      rw [ih (xs.drop s) (by simp only [List.length_drop]; omega)]
      simp only [List.length_drop]
      have hstep : xs.length + 1 + s = xs.length + (s + 1) := by omega
      rw [hstep, Nat.add_div_right _ (Nat.succ_pos s)]
      congr 1
      rcases le_or_lt s xs.length with h | h
      · rw [Nat.sub_add_cancel h]
      · have h0 : xs.length - s = 0 := by omega
        rw [h0, Nat.div_eq_of_lt (by omega), Nat.div_eq_of_lt (by omega)]

theorem chunksAux_length (s : Nat) (l : List α) :
    (chunksAux s l).length = (l.length + s) / (s + 1) :=
  chunksGo_length s l.length l (Nat.le_refl _)

theorem chunks_nil (size : Nat) : chunks size ([] : List α) = [] := by
  cases size <;> simp [chunks, chunksAux, chunksGo]

/-- A list that fits inside one chunk yields exactly one chunk. -/
theorem chunks_singleton (s : Nat) (l : List α) (h0 : l ≠ [])
    (h : l.length ≤ s + 1) : chunks (s + 1) l = [l] := by
  cases l with
  | nil => exact absurd rfl h0
  | cons x xs =>
    simp only [chunks, chunksAux, List.length_cons, chunksGo]
    have htake : xs.take s = xs := List.take_of_length_le (by
      simp only [List.length_cons] at h; omega)
    have hdrop : xs.drop s = [] := List.drop_eq_nil_of_le (by
      simp only [List.length_cons] at h; omega)
    rw [htake, hdrop]
    cases xs <;> simp [chunksGo]

/-! ## Retry lemmas -/

/-- Loop invariant: within the iteration budget, the loop always returns from
its body, so the `unreachable!()` outcome is never produced. -/
theorem retryGo_outcome_ne_panicked (op : Nat → Except ε (τ × Bool))
    (cfg : RetryConfig) :
    ∀ fuel attempt calls sleeps, fuel ≠ 0 →
      attempt + fuel = cfg.max_retries + 1 →
      (retryGo op cfg fuel attempt calls sleeps).outcome ≠ .panicked := by
  intro fuel
  induction fuel with
  | zero => intro attempt calls sleeps h0 _; exact absurd rfl h0
  | succ f ih =>
    intro attempt calls sleeps _ hsum
    rcases hop : op attempt with e | ⟨result, should_retry⟩
    · simp [retryGo, hop]
    · simp only [retryGo, hop]
      by_cases hcond : should_retry = false ∨ attempt = cfg.max_retries
      · simp [hcond]
      · rw [if_neg hcond]
        have hne : attempt ≠ cfg.max_retries := fun h => hcond (Or.inr h)
        have hf : f ≠ 0 := by omega
        exact ih (attempt + 1) (calls + 1)
          (sleeps ++ [cfg.delay_for_attempt attempt]) hf (by omega)

theorem retry_with_backoff_outcome_ne_panicked
    (op : Nat → Except ε (τ × Bool)) (cfg : RetryConfig) :
    (retry_with_backoff op cfg).outcome ≠ .panicked :=
  retryGo_outcome_ne_panicked op cfg (cfg.max_retries + 1) 0 0 []
    (Nat.succ_ne_zero _) (by omega)

/-- When every attempt asks for a retry, the loop exhausts its budget: each
permitted iteration calls the operation once, and the final iteration
(`attempt = max_retries`) returns that last attempt's result. -/
theorem retryGo_all_retry (op : Nat → Except ε (τ × Bool)) (cfg : RetryConfig)
    (r : Nat → τ) (hop : ∀ n, op n = .ok (r n, true)) :
    ∀ fuel attempt calls sleeps, fuel ≠ 0 →
      attempt + fuel = cfg.max_retries + 1 →
      (retryGo op cfg fuel attempt calls sleeps).outcome
          = .ok (r cfg.max_retries) ∧
      (retryGo op cfg fuel attempt calls sleeps).invocations = calls + fuel := by
  intro fuel
  induction fuel with
  | zero => intro attempt calls sleeps h0 _; exact absurd rfl h0
  | succ f ih =>
    intro attempt calls sleeps _ hsum
    simp only [retryGo, hop attempt]
    rcases Nat.eq_zero_or_pos f with hf0 | hfpos
    · have hat : attempt = cfg.max_retries := by omega
      rw [if_pos (Or.inr hat), hat]
      refine ⟨rfl, ?_⟩
      show calls + 1 = calls + (f + 1)
      omega
    · have hne : attempt ≠ cfg.max_retries := by omega
      have hcond : ¬(true = false ∨ attempt = cfg.max_retries) := by
        intro h; rcases h with h | h
        · exact Bool.noConfusion h
        · exact hne h
      rw [if_neg hcond]
      have := ih (attempt + 1) (calls + 1)
        (sleeps ++ [cfg.delay_for_attempt attempt]) (by omega) (by omega)
      exact ⟨this.1, by omega⟩

/-- A terminal error from the first attempt leaves the loop at once: the whole
trace is one invocation, no sleep, and the error as outcome. -/
theorem retry_with_backoff_error_first (op : Nat → Except ε (τ × Bool))
    (cfg : RetryConfig) (e : ε) (hop : op 0 = .error e) :
    retry_with_backoff op cfg = ⟨.err e, 1, []⟩ := by
  simp [retry_with_backoff, retryGo, hop]

/-- When no attempt returns a terminal error, the loop's result is the result
of a single attempt — the final one: every earlier attempt asked for a retry,
and the final attempt either declined to retry or was the last permitted one. -/
theorem retryGo_final_attempt (op : Nat → Except ε (τ × Bool))
    (cfg : RetryConfig) (hop : ∀ n, ∃ p, op n = .ok p) :
    ∀ fuel attempt calls sleeps, fuel ≠ 0 →
      attempt + fuel = cfg.max_retries + 1 →
      ∃ a r sr, attempt ≤ a ∧ a ≤ cfg.max_retries ∧ op a = .ok (r, sr) ∧
        (retryGo op cfg fuel attempt calls sleeps).outcome = .ok r ∧
        (∀ b, attempt ≤ b → b < a → ∃ r', op b = .ok (r', true)) ∧
        (a < cfg.max_retries → sr = false) := by
  intro fuel
  induction fuel with
  | zero => intro attempt calls sleeps h0 _; exact absurd rfl h0
  | succ f ih =>
    intro attempt calls sleeps _ hsum
    obtain ⟨⟨r, sr⟩, hp⟩ := hop attempt
    simp only [retryGo, hp]
    by_cases hcond : sr = false ∨ attempt = cfg.max_retries
    · rw [if_pos hcond]
      refine ⟨attempt, r, sr, Nat.le_refl _, by omega, hp, rfl, ?_, ?_⟩
      · intro b hb1 hb2; omega
      · intro hlt
        rcases hcond with h | h
        · exact h
        · omega
    · rw [if_neg hcond]
      have hsr : sr = true := by
        rcases sr with _ | _
        · exact absurd (Or.inl rfl) hcond
        · rfl
      have hne : attempt ≠ cfg.max_retries := fun h => hcond (Or.inr h)
      obtain ⟨a, r', sr', ha1, ha2, ha3, ha4, ha5, ha6⟩ :=
        ih (attempt + 1) (calls + 1)
          (sleeps ++ [cfg.delay_for_attempt attempt]) (by omega) (by omega)
      refine ⟨a, r', sr', by omega, ha2, ha3, ha4, ?_, ha6⟩
      intro b hb1 hb2
      rcases Nat.eq_or_lt_of_le hb1 with rfl | hb
      · exact ⟨r, by rw [hp, hsr]⟩
      · exact ha5 b hb hb2

/-! ## Further retry lemmas -/

/-- If every attempt before `a` asked for a retry and attempt `a` returns a
terminal error, the loop performs `a` backoff sleeps (one after each retried
attempt, none after the error), invokes the operation `a + 1` times, and
returns the error. -/
theorem retryGo_error_at (op : Nat → Except ε (τ × Bool)) (cfg : RetryConfig)
    (a : Nat) (e : ε) (ha : a ≤ cfg.max_retries)
    (hbefore : ∀ b < a, ∃ r', op b = .ok (r', true)) (herr : op a = .error e) :
    ∀ fuel attempt calls sleeps, fuel ≠ 0 →
      attempt + fuel = cfg.max_retries + 1 → attempt ≤ a →
      retryGo op cfg fuel attempt calls sleeps =
        ⟨.err e, calls + (a - attempt) + 1,
          sleeps ++ (List.range' attempt (a - attempt)).map
            cfg.delay_for_attempt⟩ := by
  intro fuel
  induction fuel with
  | zero => intro attempt calls sleeps h0 _ _; exact absurd rfl h0
  | succ f ih =>
    intro attempt calls sleeps _ hsum hle
    rcases Nat.eq_or_lt_of_le hle with rfl | hlt
    · simp [retryGo, herr]
    · obtain ⟨r', hr'⟩ := hbefore attempt hlt
      simp only [retryGo, hr']
      have hne : attempt ≠ cfg.max_retries := by omega
      have hcond : ¬(true = false ∨ attempt = cfg.max_retries) := by
        intro h; rcases h with h | h
        · exact Bool.noConfusion h
        · exact hne h
      rw [if_neg hcond]
      rw [ih (attempt + 1) (calls + 1)
        (sleeps ++ [cfg.delay_for_attempt attempt]) (by omega) (by omega)
        (by omega)]
      have hk : a - attempt = (a - (attempt + 1)) + 1 := by omega
      rw [hk, List.range'_succ]
      simp [Nat.add_assoc, Nat.add_comm 1]

/-! ## Claim theorems: chunking and retry -/

/-- C1.  Chunk partition invariant: for every finite sequence and positive
limit, the chunks of `chunk_items` concatenate back to the input in order,
every chunk has length at most the limit, the chunk count is
`ceil (n / limit)`, and the empty sequence yields zero chunks; `chunk_for_write`
and `chunk_for_get` are `chunk_items` at the named limits 25 and 100. -/
theorem chunk_partition_invariant (items : List α) (limit : Nat)
    (hpos : 0 < limit) :
    (chunk_items items (some limit)).flatten = items ∧
    (∀ c ∈ chunk_items items (some limit), c.length ≤ limit) ∧
    (chunk_items items (some limit)).length =
      (items.length + limit - 1) / limit ∧
    (items = [] → chunk_items items (some limit) = []) ∧
    chunk_for_write items = chunk_items items (some DYNAMODB_BATCH_LIMIT) ∧
    chunk_for_get items = chunk_items items (some DYNAMODB_BATCH_GET_LIMIT) := by
  obtain ⟨s, rfl⟩ : ∃ s, limit = s + 1 := ⟨limit - 1, by omega⟩
  have hred : chunk_items items (some (s + 1)) = chunksAux s items := rfl
  rw [hred]
  refine ⟨chunksAux_join s items, chunksAux_mem_length s items, ?_, ?_, rfl, rfl⟩
  · rw [chunksAux_length]
    congr 1
  · rintro rfl
    simp [chunksAux, chunksGo]

/-- Witness for C1 at the concrete input `[0, 1, 2]` with limit `2`. -/
theorem chunk_partition_invariant_witness :
    0 < 2 ∧ (chunk_items [0, 1, 2] (some 2)).flatten = [0, 1, 2] ∧
      (chunk_items [0, 1, 2] (some 2)).length = (3 + 2 - 1) / 2 :=
  ⟨by decide, (chunk_partition_invariant [0, 1, 2] 2 (by decide)).1,
    (chunk_partition_invariant [0, 1, 2] 2 (by decide)).2.2.1⟩

/-- C6.  Backoff schedule: `delay_for_attempt` is
`initial_delay * multiplier ^ attempt` computed with integer exponentiation
(in `u64`; exact whenever the product does not overflow), attempt `0` yields
exactly the initial delay, and the default configuration (3 retries, 100 ms,
×2) yields the schedule 100/200/400/800 ms. -/
theorem backoff_schedule (c : RetryConfig) (attempt : Nat)
    (hno : c.initial_delay_ms * c.backoff_multiplier ^ attempt < U64_MOD) :
    c.delay_for_attempt attempt =
      c.initial_delay_ms * c.backoff_multiplier ^ attempt ∧
    (c.initial_delay_ms < U64_MOD →
      c.delay_for_attempt 0 = c.initial_delay_ms) ∧
    RetryConfig.default =
      { max_retries := 3, initial_delay_ms := 100, backoff_multiplier := 2 } ∧
    RetryConfig.default.delay_for_attempt 0 = 100 ∧
    RetryConfig.default.delay_for_attempt 1 = 200 ∧
    RetryConfig.default.delay_for_attempt 2 = 400 ∧
    RetryConfig.default.delay_for_attempt 3 = 800 := by
  refine ⟨Nat.mod_eq_of_lt hno, ?_, rfl, rfl, rfl, rfl, rfl⟩
  intro h
  simp only [RetryConfig.delay_for_attempt, pow_zero, Nat.mul_one]
  exact Nat.mod_eq_of_lt h

/-- Witness for C6 at the default configuration, attempt `3`. -/
theorem backoff_schedule_witness :
    RetryConfig.default.initial_delay_ms *
        RetryConfig.default.backoff_multiplier ^ 3 < U64_MOD ∧
      RetryConfig.default.delay_for_attempt 3 =
        RetryConfig.default.initial_delay_ms *
          RetryConfig.default.backoff_multiplier ^ 3 :=
  ⟨by decide, (backoff_schedule RetryConfig.default 3 (by decide)).1⟩

/-- C4.  Retry termination on exhaustion: an operation that always returns
`(result, true)` is invoked exactly `max_retries + 1` times and the executor
returns the last invocation's result as a success. -/
theorem retry_termination_on_exhaustion (cfg : RetryConfig)
    (op : Nat → Except ε (τ × Bool)) (r : Nat → τ)
    (hop : ∀ n, op n = .ok (r n, true)) :
    (retry_with_backoff op cfg).invocations = cfg.max_retries + 1 ∧
    (retry_with_backoff op cfg).outcome = .ok (r cfg.max_retries) := by
  have h := retryGo_all_retry op cfg r hop (cfg.max_retries + 1) 0 0 []
    (Nat.succ_ne_zero _) (by omega)
  refine ⟨?_, h.1⟩
  have h2 := h.2
  show (retryGo op cfg (cfg.max_retries + 1) 0 0 []).invocations
      = cfg.max_retries + 1
  omega

/-- Witness for C4: always-retry operation under the default configuration
(3 retries): 4 invocations, result of attempt 3 returned as a success. -/
theorem retry_termination_on_exhaustion_witness :
    (retry_with_backoff
        (fun n => (Except.ok (n, true) : Except String (Nat × Bool)))
        RetryConfig.default).invocations = 4 ∧
    (retry_with_backoff
        (fun n => (Except.ok (n, true) : Except String (Nat × Bool)))
        RetryConfig.default).outcome = .ok 3 :=
  retry_termination_on_exhaustion RetryConfig.default _ (fun n => n)
    (fun _ => rfl)

/-- C5.  Retry short-circuit on terminal error: if every attempt before `a`
asked for a retry and attempt `a` returns a terminal error, the executor
returns that error with no further invocations (`a + 1` calls in total) and
performs no sleep after the error (only the `a` backoff sleeps of the earlier
retried attempts); in particular an error on the first call (`a = 0`) gives
exactly one invocation and an empty sleep list. -/
theorem retry_short_circuit_on_error (cfg : RetryConfig)
    (op : Nat → Except ε (τ × Bool)) (a : Nat) (e : ε)
    (ha : a ≤ cfg.max_retries)
    (hbefore : ∀ b < a, ∃ r', op b = .ok (r', true))
    (herr : op a = .error e) :
    retry_with_backoff op cfg =
      ⟨.err e, a + 1, (List.range' 0 a).map cfg.delay_for_attempt⟩ := by
  have h := retryGo_error_at op cfg a e ha hbefore herr (cfg.max_retries + 1)
    0 0 [] (Nat.succ_ne_zero _) (by omega) (Nat.zero_le a)
  rw [retry_with_backoff, h]
  simp

/-- Witness for C5: an operation failing on its first call under the default
configuration is invoked exactly once and no sleep occurs. -/
theorem retry_short_circuit_on_error_witness :
    retry_with_backoff
        (fun _ => (Except.error "operation failed" : Except String (Nat × Bool)))
        RetryConfig.default =
      ⟨.err "operation failed", 1, []⟩ :=
  retry_short_circuit_on_error RetryConfig.default _ 0 "operation failed"
    (Nat.zero_le _) (fun b hb => absurd hb (Nat.not_lt_zero b)) rfl

/-- C10.  The post-loop `unreachable!()` branch of `retry_with_backoff` is
never executed: for every configuration and every operation the loop returns
from within its body on or before the `attempt = max_retries` iteration, so
the trace outcome is never the panic marker. -/
theorem retry_unreachable_never_hit (op : Nat → Except ε (τ × Bool))
    (cfg : RetryConfig) : (retry_with_backoff op cfg).outcome ≠ .panicked :=
  retry_with_backoff_outcome_ne_panicked op cfg

/-! ## Orchestrator lemmas -/

theorem writeChunkOutcome_ne_panicked (env : WriteEnv) (t : String) (i : Nat)
    (c : List ι) : writeChunkOutcome env t i c ≠ .panicked :=
  retry_with_backoff_outcome_ne_panicked _ _

theorem putChunksGo_eq_some (env : WriteEnv) (t : String) :
    ∀ (cs : List (List ι)) (i : Nat), ∃ p, putChunksGo env t i cs = some p := by
  intro cs
  induction cs with
  | nil => exact fun i => ⟨(0, []), rfl⟩
  | cons c rest ih =>
    intro i
    obtain ⟨p, hp⟩ := ih (i + 1)
    cases hoc : writeChunkOutcome env t i c with
    | panicked => exact absurd hoc (writeChunkOutcome_ne_panicked env t i c)
    | ok r =>
      obtain ⟨s, f⟩ := r
      exact ⟨(s + p.1, f ++ p.2), by simp [putChunksGo, hoc, hp]⟩
    | err e =>
      exact ⟨(p.1, c.map (mkFailedItem e) ++ p.2), by simp [putChunksGo, hoc, hp]⟩

theorem putChunksGo_append (env : WriteEnv) (t : String) :
    ∀ (xs ys : List (List ι)) (i : Nat) (Sx Sy : Nat)
      (Fx Fy : List (FailedItem ι)),
      putChunksGo env t i xs = some (Sx, Fx) →
      putChunksGo env t (i + xs.length) ys = some (Sy, Fy) →
      putChunksGo env t i (xs ++ ys) = some (Sx + Sy, Fx ++ Fy) := by
  intro xs
  induction xs with
  | nil =>
    intro ys i Sx Sy Fx Fy hx hy
    have hx' : some ((0 : Nat), ([] : List (FailedItem ι))) = some (Sx, Fx) := hx
    injection hx' with hx''
    injection hx'' with h1 h2
    subst h1; subst h2
    simp only [List.length_nil, Nat.add_zero] at hy
    simpa using hy
  | cons c rest ih =>
    intro ys i Sx Sy Fx Fy hx hy
    simp only [List.length_cons] at hy
    have hy' : putChunksGo env t (i + 1 + rest.length) ys = some (Sy, Fy) := by
      rw [show i + 1 + rest.length = i + (rest.length + 1) by omega]; exact hy
    obtain ⟨⟨S2, F2⟩, hp⟩ := putChunksGo_eq_some env t rest (i + 1)
    cases hoc : writeChunkOutcome env t i c with
    | panicked => exact absurd hoc (writeChunkOutcome_ne_panicked env t i c)
    | ok r =>
      obtain ⟨s, f⟩ := r
      simp only [putChunksGo, hoc, hp, Option.map_some'] at hx
      injection hx with hx'
      injection hx' with h1 h2
      subst h1; subst h2
      have hrec := ih ys (i + 1) S2 Sy F2 Fy hp hy'
      simp only [List.cons_append, putChunksGo, hoc, hrec, Option.map_some']
      simp [Nat.add_assoc]
      exact hrec
    | err e =>
      simp only [putChunksGo, hoc, hp, Option.map_some'] at hx
      injection hx with hx'
      injection hx' with h1 h2
      subst h1; subst h2
      have hrec := ih ys (i + 1) S2 Sy F2 Fy hp hy'
      simp only [List.cons_append, putChunksGo, hoc, hrec, Option.map_some']
      simp
      exact hrec

/-! ## Claim theorems: batch write orchestrator -/

/-- C2.  Partial-residue accounting.  (1) `execute_batch_write`'s per-attempt
failed-item list is always empty (every non-error attempt reports
`(count, [])`).  (2) For a chunk every attempt of which reports unprocessed
records for this table, the retry budget is exhausted and the chunk's outcome
is the final attempt's `(chunk_size - unprocessed_count, [])` — the residue
is not turned into failed items.  (3) The successful count then undercounts
the chunk size whenever the final residue is non-empty.  (4) At orchestrator
level (single-chunk input), the returned `BatchWriteResult` counts
`chunk_size - final_unprocessed` successes and has an empty `failed_items`;
the residual records appear in neither. -/
theorem batch_write_partial_residue (env : WriteEnv) (table_name : String)
    (i : Nat) (chunk : List ι) (m : Nat → List (String × Nat)) (n : Nat → Nat)
    (henv : ∀ a, env i a = .ok (some (m a)) ∧ m a ≠ [] ∧
      (m a).lookup table_name = some (n a)) :
    (∀ (t : String) (c : List ι) (resp : Except String WriteOutput),
      (∃ e, execute_batch_write (ι := ι) t c resp = .error e) ∨
      (∃ s b, execute_batch_write t c resp = .ok ((s, []), b))) ∧
    writeChunkOutcome env table_name i chunk =
      .ok (chunk.length - n RetryConfig.default.max_retries, []) ∧
    (0 < n RetryConfig.default.max_retries →
      n RetryConfig.default.max_retries ≤ chunk.length →
      chunk.length - n RetryConfig.default.max_retries < chunk.length) ∧
    (rustTrim table_name ≠ "" → chunk ≠ [] →
      chunk.length ≤ DYNAMODB_BATCH_LIMIT → i = 0 →
      batch_put_items env table_name chunk =
        some (.ok ⟨chunk.length - n RetryConfig.default.max_retries, 0, []⟩)) := by
  have hshape : ∀ (t : String) (c : List ι) (resp : Except String WriteOutput),
      (∃ e, execute_batch_write (ι := ι) t c resp = .error e) ∨
      (∃ s b, execute_batch_write t c resp = .ok ((s, []), b)) := by
    intro t c resp
    rcases resp with e | output
    · exact Or.inl ⟨.AwsSdk e, rfl⟩
    · refine Or.inr ?_
      rcases output with _ | u
      · exact ⟨c.length, false, rfl⟩
      · cases hu : u.isEmpty with
        | true => exact ⟨c.length, false, by simp [execute_batch_write, hu]⟩
        | false =>
          cases hl : u.lookup t with
          | none =>
            exact ⟨c.length, false, by simp [execute_batch_write, hu, hl]⟩
          | some cnt =>
            exact ⟨c.length - cnt, true, by simp [execute_batch_write, hu, hl]⟩
  have hop : ∀ a, execute_batch_write table_name chunk (env i a)
      = .ok ((chunk.length - n a, []), true) := by
    intro a
    obtain ⟨h1, h2, h3⟩ := henv a
    rcases hma : m a with _ | ⟨hd, tl⟩
    · exact absurd hma h2
    · rw [hma] at h1 h3
      simp [execute_batch_write, h1, h3]
  have houtcome : writeChunkOutcome env table_name i chunk =
      .ok (chunk.length - n RetryConfig.default.max_retries, []) :=
    (retryGo_all_retry
      (fun a => execute_batch_write table_name chunk (env i a))
      RetryConfig.default (fun a => (chunk.length - n a, [])) hop
      (RetryConfig.default.max_retries + 1) 0 0 [] (Nat.succ_ne_zero _)
      (by omega)).1
  refine ⟨hshape, houtcome, fun h1 h2 => by omega, ?_⟩
  intro htable hne hlen hi
  subst hi
  have hie : chunk.isEmpty = false := by
    cases chunk with
    | nil => exact absurd rfl hne
    | cons a b => rfl
  have hchunks : chunk_for_write chunk = [chunk] :=
    chunks_singleton 24 chunk hne hlen
  have hval : validate_table_name table_name = .ok () := by
    simp [validate_table_name, htable]
  simp [batch_put_items, hval, hie, hchunks, putChunksGo, houtcome]

/-- Witness for C2: a two-record chunk whose every attempt reports one
unprocessed record contributes `2 - 1 = 1` success and no failed items. -/
theorem batch_write_partial_residue_witness :
    batch_put_items (ι := Nat) (fun _ _ => .ok (some [("t", 1)])) "t" [10, 20]
      = some (.ok ⟨1, 0, []⟩) :=
  (batch_write_partial_residue (fun _ _ => .ok (some [("t", 1)])) "t" 0
      [10, 20] (fun _ => [("t", 1)]) (fun _ => 1)
      (fun _ => ⟨rfl,
        (by decide : ([("t", 1)] : List (String × Nat)) ≠ []),
        (by decide : List.lookup "t" [("t", 1)] = some 1)⟩)).2.2.2
    (by decide) (by decide) (by decide) rfl

/-- C7.  Batch write degradation on a hard chunk failure: when the bulk-write
call of the chunk at position `pre.length` raises a terminal store error on
its first attempt, every record of that chunk appears in `failed_items` with
the message `"Batch write error: " ++ <error display>`, the chunk contributes
zero to `successful`, the remaining chunks are still processed, and the call
returns a degraded `BatchWriteResult` instead of propagating the error. -/
theorem batch_write_degradation_on_chunk_failure (env : WriteEnv)
    (table_name : String) (items : List ι) (pre : List (List ι))
    (cj : List ι) (post : List (List ι)) (s : String)
    (htable : rustTrim table_name ≠ "") (hne : items ≠ [])
    (hchunks : chunk_for_write items = pre ++ cj :: post)
    (herr : env pre.length 0 = .error s) :
    (∀ it : ι, mkFailedItem (Error.AwsSdk s) it
        = ⟨it, "Batch write error: " ++ ("AWS SDK error: " ++ s)⟩) ∧
    ∃ S1 S2 F1 F2,
      putChunksGo env table_name 0 pre = some (S1, F1) ∧
      putChunksGo env table_name (pre.length + 1) post = some (S2, F2) ∧
      batch_put_items env table_name items =
        some (.ok ⟨S1 + S2,
          (F1 ++ (cj.map (mkFailedItem (Error.AwsSdk s)) ++ F2)).length,
          F1 ++ (cj.map (mkFailedItem (Error.AwsSdk s)) ++ F2)⟩) := by
  refine ⟨fun it => rfl, ?_⟩
  obtain ⟨⟨S1, F1⟩, hpre⟩ := putChunksGo_eq_some env table_name pre 0
  obtain ⟨⟨S2, F2⟩, hpost⟩ :=
    putChunksGo_eq_some env table_name post (pre.length + 1)
  have h0 : execute_batch_write table_name cj (env pre.length 0)
      = .error (.AwsSdk s) := by rw [herr]; rfl
  have htrace := retry_with_backoff_error_first
    (fun a => execute_batch_write table_name cj (env pre.length a))
    RetryConfig.default (.AwsSdk s) h0
  have hoc : writeChunkOutcome env table_name pre.length cj
      = .err (.AwsSdk s) := by
    show (retry_with_backoff
      (fun a => execute_batch_write table_name cj (env pre.length a))
      RetryConfig.default).outcome = .err (.AwsSdk s)
    rw [htrace]
  have hcj : putChunksGo env table_name pre.length (cj :: post)
      = some (S2, cj.map (mkFailedItem (.AwsSdk s)) ++ F2) := by
    simp [putChunksGo, hoc, hpost]
  have hall := putChunksGo_append env table_name pre (cj :: post) 0 S1 S2 F1
    (cj.map (mkFailedItem (.AwsSdk s)) ++ F2) hpre (by simpa using hcj)
  refine ⟨S1, S2, F1, F2, hpre, hpost, ?_⟩
  have hie : items.isEmpty = false := by
    cases items with
    | nil => exact absurd rfl hne
    | cons a b => rfl
  have hval : validate_table_name table_name = .ok () := by
    simp [validate_table_name, htable]
  simp [batch_put_items, hval, hie, hchunks, hall]

/-- Witness for C7: a single one-record chunk whose call fails terminally;
the record lands in `failed_items` with the derived message and the result is
returned as a degraded success. -/
theorem batch_write_degradation_witness :
    batch_put_items (ι := Nat) (fun _ _ => .error "x") "t" [7]
      = some (.ok ⟨0, 1, [⟨7, "Batch write error: AWS SDK error: x"⟩]⟩) := by
  obtain ⟨hmk, S1, S2, F1, F2, hpre, hpost, hmain⟩ :=
    batch_write_degradation_on_chunk_failure (ι := Nat)
      (fun _ _ => .error "x") "t" [7] [] [7] [] "x" (by decide) (by decide)
      (chunks_singleton 24 [7] (by decide) (by decide)) rfl
  have h1 : some ((0 : Nat), ([] : List (FailedItem Nat))) = some (S1, F1) :=
    hpre
  have h2 : some ((0 : Nat), ([] : List (FailedItem Nat))) = some (S2, F2) :=
    hpost
  injection h1 with h1'
  injection h1' with ha hb
  injection h2 with h2'
  injection h2' with hc hd
  subst ha; subst hb; subst hc; subst hd
  simpa using hmain

/-! ## Claim theorems: validation and typed reads -/

/-- C8.  Validation precedes the empty-input short-circuit: a table name that
is blank after trimming (in particular whitespace-only) makes both
`batch_put_items` and `batch_get_items` return the `Validation` error, for
every input list — including the empty one. -/
theorem blank_table_validation_precedes_empty_input (table_name : String)
    (envW : WriteEnv) (envG : GetEnv ι) (items : List ι) (keys : List μ)
    (htable : rustTrim table_name = "") :
    batch_put_items envW table_name items =
      some (.error (.Validation "Table name cannot be empty")) ∧
    batch_get_items envG table_name keys =
      some (.error (.Validation "Table name cannot be empty")) := by
  have hval : validate_table_name table_name =
      .error (.Validation "Table name cannot be empty") := by
    simp [validate_table_name, htable]
  constructor
  · simp [batch_put_items, hval]
  · simp [batch_get_items, hval]

/-- Witness for C8: the whitespace-only table name `"   "` with empty input
lists is rejected by both batch entry points. -/
theorem blank_table_validation_witness :
    batch_put_items (ι := Nat) (fun _ _ => .error "") "   " [] =
      some (.error (.Validation "Table name cannot be empty")) ∧
    batch_get_items (ι := Nat) (μ := Nat) (fun _ _ => .error "") "   " [] =
      some (.error (.Validation "Table name cannot be empty")) :=
  blank_table_validation_precedes_empty_input "   " _ _ [] [] (by decide)

/-- Helper: `collectResults` fails as soon as some element fails: if any element of
the list maps to an error, the collected result is the error of some (the
first failing) element of the list. -/
theorem collectResults_error_of_mem (f : α → Except Error β) :
    ∀ (l : List α), (∃ x ∈ l, ∃ m, f x = .error m) →
      ∃ e x, x ∈ l ∧ f x = .error e ∧ collectResults f l = .error e := by
  intro l
  induction l with
  | nil =>
    rintro ⟨x, hx, _⟩
    exact absurd hx (List.not_mem_nil x)
  | cons a as ih =>
    rintro ⟨x, hx, m, hm⟩
    rcases hfa : f a with e | b
    · exact ⟨e, a, List.mem_cons_self a as, hfa, by simp [collectResults, hfa]⟩
    · have hxas : x ∈ as := by
        rcases List.mem_cons.mp hx with rfl | h
        · rw [hfa] at hm; exact absurd hm (by simp)
        · exact h
      obtain ⟨e, y, hy, hfy, hcol⟩ := ih ⟨x, hxas, m, hm⟩
      exact ⟨e, y, List.mem_cons_of_mem a hy, hfy,
        by simp [collectResults, hfa, hcol]⟩

/-- C9.  Typed `batch_get` is all-or-nothing on decode: when the low-level
read succeeds but deserializing any one retrieved item fails, the whole call
returns a `Validation` error (carrying a `Failed to deserialize item:`
message) and no `BatchGetResult` is returned. -/
theorem batch_get_decode_all_or_nothing (env : GetEnv ι) (table_name : String)
    (serialize_key : κ → Except String ι)
    (deserialize_item : ι → Except String τ) (keys : List κ)
    (key_maps : List ι) (result : BatchGetResult ι ι)
    (htable : rustTrim table_name ≠ "")
    (hser : collectResults
      (fun k => match serialize_key k with
        | .error e => .error (.Validation ("Failed to serialize key: " ++ e))
        | .ok m => .ok m) keys = .ok key_maps)
    (hget : batch_get_items env table_name key_maps = some (.ok result))
    (hbad : ∃ it ∈ result.items, ∃ m, deserialize_item it = .error m) :
    ∃ m, batch_get env table_name serialize_key deserialize_item keys =
      some (.error (.Validation ("Failed to deserialize item: " ++ m))) := by
  have hval : validate_table_name table_name = .ok () := by
    simp [validate_table_name, htable]
  obtain ⟨it, hit, m, hm⟩ := hbad
  have hbad' : ∃ x ∈ result.items, ∃ e,
      (fun it => match deserialize_item it with
        | .error e =>
          (.error (.Validation ("Failed to deserialize item: " ++ e)) :
            Except Error τ)
        | .ok v => .ok v) x = .error e :=
    ⟨it, hit, .Validation ("Failed to deserialize item: " ++ m), by simp [hm]⟩
  obtain ⟨e, y, hy, hfy, hcol⟩ := collectResults_error_of_mem _ _ hbad'
  rcases hdy : deserialize_item y with me | v
  · rw [hdy] at hfy
    simp only [Except.error.injEq] at hfy
    refine ⟨me, ?_⟩
    simp only [batch_get, hval, hser, hget, hcol]
    rw [hfy]
  · rw [hdy] at hfy
    exact absurd hfy (by simp)

/-- Witness for C9: one key, one retrieved item, a decoder that rejects it —
the whole typed call returns the `Validation` error. -/
theorem batch_get_decode_all_or_nothing_witness :
    ∃ m, batch_get
        (fun _ _ => .ok ⟨some [("t", [9])], none⟩ : GetEnv Nat) "t"
        (fun k : Nat => .ok k)
        (fun _ : Nat => (.error "boom" : Except String Nat)) [5] =
      some (.error (.Validation ("Failed to deserialize item: " ++ m))) :=
  batch_get_decode_all_or_nothing
    (fun _ _ => .ok ⟨some [("t", [9])], none⟩) "t" (fun k => .ok k)
    (fun _ => .error "boom") [5] [5] ⟨1, 0, [9], []⟩ (by decide) rfl
    (by decide) ⟨9, by decide, "boom", rfl⟩

/-! ## Claim theorems: batch read accumulation (C3) -/

/-- Counterexample to C3 as stated: in the environment `getEnvEx`, attempt 0
of the single chunk `[5]` retrieves the record `9` and reports unprocessed
keys (so it is retried), yet the final `BatchGetResult` contains no items at
all — the record retrieved by the retried attempt is discarded, not
accumulated. -/
theorem batch_get_accumulation_counterexample :
    execute_batch_get "t" ([5] : List Nat) (getEnvEx 0 0)
      = .ok (([9], []), true) ∧
    batch_get_items getEnvEx "t" ([5] : List Nat)
      = some (.ok ⟨0, 0, [], []⟩) := by
  constructor
  · decide
  · decide

/-- C3 (amended).  For a read chunk whose retry loop sees no terminal error:
the chunk's contribution to the final `BatchGetResult` is exactly the final
attempt's retrieved records (records from earlier, retried attempts are
discarded — each retry resubmits the whole chunk); every earlier attempt
reported unprocessed keys; and within an attempt the per-attempt failed-key
list is empty and `should_retry` is `true` iff the response reports
unprocessed keys for this table. -/
theorem batch_get_final_attempt_only (env : GetEnv ι) (table_name : String)
    (i : Nat) (chunk : List μ)
    (hok : ∀ a, ∃ p,
      execute_batch_get (ι := ι) table_name chunk (env i a) = .ok p) :
    (∃ a r sr, a ≤ RetryConfig.default.max_retries ∧
      execute_batch_get table_name chunk (env i a) = .ok (r, sr) ∧
      getChunkOutcome env table_name i chunk = .ok r ∧
      (∀ b, b < a → ∃ r',
        execute_batch_get (ι := ι) table_name chunk (env i b)
          = .ok (r', true)) ∧
      (a < RetryConfig.default.max_retries → sr = false)) ∧
    (∀ (out : GetOutput ι) (r : List ι × List (FailedKey μ)) (b : Bool),
      execute_batch_get table_name chunk (.ok out) = .ok (r, b) →
      r.2 = [] ∧
      (b = true ↔
        ∃ u, out.unprocessed_keys = some u ∧ u ≠ [] ∧ table_name ∈ u)) := by
  constructor
  · obtain ⟨a, r, sr, ha0, ha, hopa, hout, hbefore, hlast⟩ :=
      retryGo_final_attempt
        (fun a => execute_batch_get table_name chunk (env i a))
        RetryConfig.default hok (RetryConfig.default.max_retries + 1) 0 0 []
        (Nat.succ_ne_zero _) (by omega)
    exact ⟨a, r, sr, ha, hopa, hout,
      fun b hb => hbefore b (Nat.zero_le b) hb, hlast⟩
  · intro out r b h
    obtain ⟨resp, unp⟩ := out
    rcases resp with _ | rs <;> rcases unp with _ | u
    · have h' : Except.ok ((([] : List ι), ([] : List (FailedKey μ))), false)
          = Except.ok (r, b) := h
      injection h' with h''
      injection h'' with h1 h2
      subst h1; subst h2
      refine ⟨rfl, ?_⟩
      refine ⟨fun hf => absurd hf (by simp), ?_⟩
      rintro ⟨u, hu, _, _⟩
      exact Option.noConfusion hu
    · cases hu : u.isEmpty with
      | true =>
        have hunil : u = [] := List.isEmpty_iff.mp hu
        subst hunil
        have h' : Except.ok ((([] : List ι), ([] : List (FailedKey μ))), false)
            = Except.ok (r, b) := h
        injection h' with h''
        injection h'' with h1 h2
        subst h1; subst h2
        refine ⟨rfl, ?_⟩
        refine ⟨fun hf => absurd hf (by simp), ?_⟩
        rintro ⟨u', hu', hne', _⟩
        injection hu' with he
        exact absurd he.symm hne'
      | false =>
        by_cases hm : table_name ∈ u
        · have hexe : execute_batch_get (ι := ι) table_name chunk
              (.ok ⟨none, some u⟩) = .ok ((([] : List ι), []), true) := by
            simp [execute_batch_get, hu, hm]
          rw [hexe] at h
          injection h with h''
          injection h'' with h1 h2
          subst h1; subst h2
          exact ⟨rfl, ⟨fun _ => ⟨u, rfl, List.isEmpty_eq_false.mp hu, hm⟩,
            fun _ => rfl⟩⟩
        · have hexe : execute_batch_get (ι := ι) table_name chunk
              (.ok ⟨none, some u⟩) = .ok ((([] : List ι), []), false) := by
            simp [execute_batch_get, hu, hm]
          rw [hexe] at h
          injection h with h''
          injection h'' with h1 h2
          subst h1; subst h2
          refine ⟨rfl, ?_⟩
          refine ⟨fun hf => absurd hf (by simp), ?_⟩
          rintro ⟨u', hu', _, hmem'⟩
          injection hu' with he
          subst he
          exact absurd hmem' hm
    · have h' : Except.ok (((rs.lookup table_name).getD [],
            ([] : List (FailedKey μ))), false) = Except.ok (r, b) := h
      injection h' with h''
      injection h'' with h1 h2
      subst h1; subst h2
      refine ⟨rfl, ?_⟩
      refine ⟨fun hf => absurd hf (by simp), ?_⟩
      rintro ⟨u, hu, _, _⟩
      exact Option.noConfusion hu
    · cases hu : u.isEmpty with
      | true =>
        have hunil : u = [] := List.isEmpty_iff.mp hu
        subst hunil
        have h' : Except.ok (((rs.lookup table_name).getD [],
              ([] : List (FailedKey μ))), false) = Except.ok (r, b) := h
        injection h' with h''
        injection h'' with h1 h2
        subst h1; subst h2
        refine ⟨rfl, ?_⟩
        refine ⟨fun hf => absurd hf (by simp), ?_⟩
        rintro ⟨u', hu', hne', _⟩
        injection hu' with he
        exact absurd he.symm hne'
      | false =>
        by_cases hm : table_name ∈ u
        · have hexe : execute_batch_get (ι := ι) table_name chunk
              (.ok ⟨some rs, some u⟩)
              = .ok (((rs.lookup table_name).getD [], []), true) := by
            simp [execute_batch_get, hu, hm]
          rw [hexe] at h
          injection h with h''
          injection h'' with h1 h2
          subst h1; subst h2
          exact ⟨rfl, ⟨fun _ => ⟨u, rfl, List.isEmpty_eq_false.mp hu, hm⟩,
            fun _ => rfl⟩⟩
        · have hexe : execute_batch_get (ι := ι) table_name chunk
              (.ok ⟨some rs, some u⟩)
              = .ok (((rs.lookup table_name).getD [], []), false) := by
            simp [execute_batch_get, hu, hm]
          rw [hexe] at h
          injection h with h''
          injection h'' with h1 h2
          subst h1; subst h2
          refine ⟨rfl, ?_⟩
          refine ⟨fun hf => absurd hf (by simp), ?_⟩
          rintro ⟨u', hu', _, hmem'⟩
          injection hu' with he
          subst he
          exact absurd hmem' hm

/-- Witness for the amended C3 in the environment `getEnvEx`: the chunk `[5]`
settles on some final attempt, whose retrieved records alone make up the
chunk outcome, every earlier attempt having been retried. -/
theorem batch_get_final_attempt_only_witness :
    ∃ a r sr, a ≤ RetryConfig.default.max_retries ∧
      execute_batch_get "t" ([5] : List Nat) (getEnvEx 0 a) = .ok (r, sr) ∧
      getChunkOutcome getEnvEx "t" 0 [5] = .ok r ∧
      (∀ b, b < a → ∃ r',
        execute_batch_get (ι := Nat) "t" ([5] : List Nat) (getEnvEx 0 b)
          = .ok (r', true)) ∧
      (a < RetryConfig.default.max_retries → sr = false) :=
  (batch_get_final_attempt_only getEnvEx "t" 0 [5]
    (fun a => by
      cases a with
      | zero => exact ⟨(([9], []), true), rfl⟩
      | succ k => exact ⟨(([], []), false), rfl⟩)).1

end CleanDynamoDbStore
